import Mathlib

/-!
Verification development for the NetMD query codec
(`src/netmd/query_utils.rs` of G2-Games/minidisc-pc).

The two Rust functions `format_query` and `scan_query` are shallowly
embedded as total Lean functions over lists of `Nat` bytes.  Machine
integers are modelled as `Int`/`Nat` with explicit wrapping
(`toUnsigned`/`toSigned`); Rust panics (`unwrap`, failed `assert_eq`)
are modelled by the `crash` outcome of `RunResult`; recoverable errors
(`QueryError`) by `err`.
-/

namespace NetMD

/-- Mirrors the Rust enum `QueryValue`: a 64-bit signed number or a byte
array.  Bytes are modelled as `Nat` (values of a `u8` are `< 256`). -/
inductive QueryValue where
  | Number : Int → QueryValue
  | Array : List Nat → QueryValue
deriving DecidableEq, Repr

/-- Mirrors the Rust enum `QueryError` (`UnrecognizedChar` and
`InputMismatch {index, expected, actual, format_string}`). -/
inductive QueryError where
  | UnrecognizedChar : Char → QueryError
  | InputMismatch : Nat → Nat → Nat → String → QueryError
deriving DecidableEq, Repr

/-- Outcome of running one of the embedded functions: `ok` mirrors
`Ok`, `err` mirrors `Err`, and `crash` mirrors a Rust panic (a failed
`unwrap` or `assert_eq`). -/
inductive RunResult (α : Type) where
  | ok : α → RunResult α
  | err : QueryError → RunResult α
  | crash : RunResult α
deriving DecidableEq, Repr

/-- The value of an `Int` wrapped into the unsigned range `[0, 2^w)`,
as a `Nat` (Rust's `as uN` cast / two's-complement bit pattern). -/
def toUnsigned (w : Nat) (v : Int) : Nat :=
  (v % ((2 : Int) ^ w)).toNat

/-- Reads a `w`-bit pattern `n` as a two's-complement signed integer
(Rust's `iN::from_be_bytes` sign interpretation). -/
def toSigned (w : Nat) (n : Nat) : Int :=
  if n < 2 ^ (w - 1) then (n : Int) else (n : Int) - (2 : Int) ^ w

/-- Big-endian byte serialisation of `n` into exactly `k` bytes
(mirrors Rust's `to_be_bytes` on the wrapped value). -/
def beBytes (k : Nat) (n : Nat) : List Nat :=
  match k with
  | 0 => []
  | k + 1 => beBytes k (n / 256) ++ [n % 256]

/-- Recombines a big-endian byte list into a `Nat`
(mirrors Rust's `from_be_bytes`). -/
def bytesToNat (l : List Nat) : Nat :=
  l.foldl (fun a b => a * 256 + b) 0

/-- Value of a single hexadecimal digit character, `none` when the
character is not a hex digit (as accepted by Rust `from_str_radix` with
radix 16). -/
def hexDigit? (c : Char) : Option Nat :=
  if '0' ≤ c ∧ c ≤ '9' then some (c.toNat - '0'.toNat)
  else if 'a' ≤ c ∧ c ≤ 'f' then some (c.toNat - 'a'.toNat + 10)
  else if 'A' ≤ c ∧ c ≤ 'F' then some (c.toNat - 'A'.toNat + 10)
  else none

/-- Mirrors `u8::from_str_radix(&[c1, c2], 16)`: two hex digits, or a
leading `+` sign followed by one hex digit; `none` models the `Err`
case (whose `unwrap` in the source panics). -/
def parseHexByte (c1 c2 : Char) : Option Nat :=
  if c1 = '+' then hexDigit? c2
  else
    match hexDigit? c1, hexDigit? c2 with
    | some a, some b => some (16 * a + b)
    | _, _ => none

/-- Rust's `as i32` narrowing cast on an `i64` value. -/
def i32wrap (v : Int) : Int :=
  toSigned 32 (toUnsigned 32 v)

/-- Modelled from the spec: `utils::int_to_bcd` lives in
`crate::netmd::utils`, which is not part of the sources under study.
The spec defines BCD as "encoding where each nibble of a byte
represents one decimal digit (e.g., decimal 42 → byte 0x42)", so the
base-10 digits of the (non-negative) value become base-16 digits of
the result; behaviour on negative input is unspecified and modelled as
the conversion of `Int.toNat` of the value. -/
def int_to_bcd (v : Int) : Nat :=
  Nat.ofDigits 16 (Nat.digits 10 v.toNat)

/-- Modelled from the spec: `utils::bcd_to_int` lives in
`crate::netmd::utils`, which is not part of the sources under study.
The spec says decode "is the exact inverse" of the BCD encode, so the
base-16 digits (nibbles) of the value are read back as base-10
digits. -/
def bcd_to_int (v : Int) : Int :=
  (Nat.ofDigits 10 (Nat.digits 16 v.toNat) : Int)

/-- Loop state of `format_query`: the output buffer, the pending
literal nibble, the remaining argument stack, the recorded endianness
override and the escape flag. -/
structure FmtSt where
  result : List Nat
  half : Option Char
  args : List QueryValue
  endian : Option Char
  escaped : Bool
deriving Repr

/-- One iteration of the `for character in format.chars()` loop of
`format_query`, for character `c` in state `st`. -/
def fmtStep (c : Char) (st : FmtSt) : RunResult FmtSt :=
  if st.escaped then
    if st.endian = none ∧ (c = '<' ∨ c = '>') then
      .ok { st with endian := some c }
    else
      let st1 := { st with escaped := false }
      if c = 'b' ∨ c = 'w' ∨ c = 'd' ∨ c = 'q' then
        match st1.args with
        | QueryValue.Number v :: rest =>
          let bytes :=
            if c = 'b' then [toUnsigned 8 v]
            else if c = 'w' then beBytes 2 (toUnsigned 16 v)
            else if c = 'd' then beBytes 4 (toUnsigned 32 v)
            else beBytes 8 (toUnsigned 64 v)
          .ok { st1 with result := st1.result ++ bytes, args := rest, endian := none }
        | _ => .crash
      else if c = 'x' ∨ c = 's' ∨ c = 'z' then
        match st1.args with
        | QueryValue.Array a :: rest =>
          let len := if c = 's' then a.length + 1 else a.length
          let lenBytes :=
            if c = 'z' then [len &&& 0xFF]
            else [(len >>> 8) &&& 0xFF, len &&& 0xFF]
          let nul := if c = 's' then [0] else []
          .ok { st1 with result := st1.result ++ lenBytes ++ a ++ nul, args := rest }
        | _ => .crash
      else if c = '*' then
        match st1.args with
        | QueryValue.Array a :: rest =>
          .ok { st1 with result := st1.result ++ a, args := rest }
        | _ => .crash
      else if c = 'B' ∨ c = 'W' then
        match st1.args with
        | QueryValue.Number v :: rest =>
          let converted := int_to_bcd (i32wrap v)
          let bytes :=
            if c = 'W' then [(converted >>> 8) &&& 0xFF, converted &&& 0xFF]
            else [converted &&& 0xFF]
          .ok { st1 with result := st1.result ++ bytes, args := rest }
        | _ => .crash
      else .err (QueryError.UnrecognizedChar c)
  else if c = '%' then .ok { st with escaped := true }
  else if c = ' ' then .ok st
  else
    match st.half with
    | none => .ok { st with half := some c }
    | some h =>
      match parseHexByte h c with
      | some b => .ok { st with result := st.result ++ [b], half := none }
      | none => .crash

/-- The character loop of `format_query`, threading the state through
`fmtStep` and propagating errors and panics. -/
def formatGo : List Char → FmtSt → RunResult FmtSt
  | [], st => .ok st
  | c :: cs, st =>
    match fmtStep c st with
    | .ok st2 => formatGo cs st2
    | .err e => .err e
    | .crash => .crash

/-- Shallow embedding of `format_query(format, args)`. -/
def format_query (format : String) (args : List QueryValue) : RunResult (List Nat) :=
  match formatGo format.toList { result := [], half := none, args := args, endian := none, escaped := false } with
  | .ok st => .ok st.result
  | .err e => .err e
  | .crash => .crash

/-- Loop state of `scan_query`: the decoded values so far, the
remaining input bytes, the pending literal nibble, the recorded
endianness override and the escape flag. -/
structure ScanSt where
  result : List QueryValue
  input : List Nat
  half : Option Char
  endian : Option Char
  escaped : Bool
deriving Repr

/-- One iteration of the `for character in format.chars()` loop of
`scan_query`, for character `c` in state `st`; `iL` is
`initial_length` and `fmt` the full format string (both are captured
by the error construction in the source). -/
def scanStep (iL : Nat) (fmt : String) (c : Char) (st : ScanSt) : RunResult ScanSt :=
  if st.escaped then
    if st.endian = none ∧ (c = '<' ∨ c = '>') then
      .ok { st with endian := some c }
    else
      let st1 := { st with escaped := false }
      if c = '?' then .ok { st1 with input := st1.input.tail }
      else if c = 'b' ∨ c = 'w' ∨ c = 'd' ∨ c = 'q' then
        let k := if c = 'b' then 1 else if c = 'w' then 2 else if c = 'd' then 4 else 8
        if k ≤ st1.input.length then
          let n := bytesToNat (st1.input.take k)
          let v : Int := if c = 'b' then (n : Int) else toSigned (8 * k) n
          .ok { st1 with result := st1.result ++ [QueryValue.Number v],
                         input := st1.input.drop k, endian := none }
        else .crash
      else if c = 'x' ∨ c = 's' ∨ c = 'z' then
        if c = 'z' then
          match st1.input with
          | len :: rest =>
            if len ≤ rest.length then
              .ok { st1 with result := st1.result ++ [QueryValue.Array (rest.take len)],
                             input := rest.drop len }
            else .crash
          | [] => .crash
        else
          if 2 ≤ st1.input.length then
            let len := bytesToNat (st1.input.take 2)
            let rest := st1.input.drop 2
            if len ≤ rest.length then
              .ok { st1 with result := st1.result ++ [QueryValue.Array (rest.take len)],
                             input := rest.drop len }
            else .crash
          else .crash
      else if c = '*' ∨ c = '#' then
        .ok { st1 with result := st1.result ++ [QueryValue.Array (st1.input.take iL)],
                       input := st1.input.drop iL }
      else if c = 'B' then
        match st1.input with
        | v :: rest =>
          .ok { st1 with result := st1.result ++ [QueryValue.Number (bcd_to_int (v : Int))],
                         input := rest }
        | [] => .crash
      else if c = 'W' then
        match st1.input with
        | v1 :: v2 :: rest =>
          .ok { st1 with result := st1.result ++
                  [QueryValue.Number (bcd_to_int (((v1 <<< 8) ||| v2 : Nat) : Int))],
                         input := rest }
        | _ => .crash
      else .err (QueryError.UnrecognizedChar c)
  else if c = '%' then
    if st.half = none then .ok { st with escaped := true } else .crash
  else if c = ' ' then .ok st
  else
    match st.half with
    | none => .ok { st with half := some c }
    | some h =>
      match st.input with
      | [] => .crash
      | inputValue :: rest =>
        match parseHexByte h c with
        | none => .crash
        | some formatValue =>
          if formatValue = inputValue then .ok { st with input := rest, half := none }
          else .err (QueryError.InputMismatch (iL - rest.length - 1) formatValue inputValue fmt)

/-- The character loop of `scan_query`. -/
def scanGo (iL : Nat) (fmt : String) : List Char → ScanSt → RunResult ScanSt
  | [], st => .ok st
  | c :: cs, st =>
    match scanStep iL fmt c st with
    | .ok st2 => scanGo iL fmt cs st2
    | .err e => .err e
    | .crash => .crash

/-- Shallow embedding of `scan_query(query_result, format)`: the first
input byte is discarded up front (`input_stack.next()`), the format is
scanned, and the final `assert_eq!(input_stack.len(), 0)` is modelled
by crashing when input remains. -/
def scan_query (queryResult : List Nat) (format : String) : RunResult (List QueryValue) :=
  match scanGo queryResult.length format format.toList
      { result := [], input := queryResult.tail, half := none, endian := none, escaped := false } with
  | .ok st => if st.input.length = 0 then .ok st.result else .crash
  | .err e => .err e
  | .crash => .crash

/-! ### Basic arithmetic and byte-serialisation lemmas -/

theorem and_255_eq_mod (n : Nat) : n &&& 0xFF = n % 256 := by
  have h : (0xFF : Nat) = 2 ^ 8 - 1 := by norm_num
  rw [h, Nat.and_pow_two_sub_one_eq_mod]

theorem shiftRight_8_eq_div (n : Nat) : n >>> 8 = n / 256 := by
  rw [Nat.shiftRight_eq_div_pow]

theorem beBytes_length (k n : Nat) : (beBytes k n).length = k := by
  induction k generalizing n with
  | zero => rfl
  | succ k ih => simp [beBytes, ih]

theorem bytesToNat_append_one (l : List Nat) (b : Nat) :
    bytesToNat (l ++ [b]) = bytesToNat l * 256 + b := by
  simp [bytesToNat, List.foldl_append]

theorem bytesToNat_beBytes {k n : Nat} (h : n < 256 ^ k) :
    bytesToNat (beBytes k n) = n := by
  induction k generalizing n with
  | zero =>
    have : n = 0 := by simpa using h
    simp [this, beBytes, bytesToNat]
  | succ k ih =>
    have hdiv : n / 256 < 256 ^ k := by
      rw [Nat.div_lt_iff_lt_mul (by norm_num)]
      calc n < 256 ^ (k + 1) := h
        _ = 256 ^ k * 256 := by ring
    rw [beBytes, bytesToNat_append_one, ih hdiv]
    omega

theorem toUnsigned_lt (w : Nat) (v : Int) : toUnsigned w v < 2 ^ w := by
  unfold toUnsigned
  have hpos : (0 : Int) < (2 : Int) ^ w := by positivity
  have h1 : v % (2 : Int) ^ w < (2 : Int) ^ w := Int.emod_lt_of_pos v hpos
  have h2 : (0 : Int) ≤ v % (2 : Int) ^ w := Int.emod_nonneg v (by positivity)
  have : ((2 : Int) ^ w).toNat = 2 ^ w := by
    rw [← Int.toNat_ofNat (2 ^ w)]
    norm_cast
  omega

theorem toUnsigned_eq_self {w : Nat} {v : Int} (h1 : 0 ≤ v) (h2 : v < (2 : Int) ^ w) :
    (toUnsigned w v : Int) = v := by
  unfold toUnsigned
  rw [Int.emod_eq_of_lt h1 h2]
  omega

theorem toSigned_toUnsigned_16 {v : Int} (h1 : -2 ^ 15 ≤ v) (h2 : v < 2 ^ 15) :
    toSigned 16 (toUnsigned 16 v) = v := by
  unfold toSigned toUnsigned
  norm_num at h1 h2 ⊢
  omega

theorem toSigned_toUnsigned_32 {v : Int} (h1 : -2 ^ 31 ≤ v) (h2 : v < 2 ^ 31) :
    toSigned 32 (toUnsigned 32 v) = v := by
  unfold toSigned toUnsigned
  norm_num at h1 h2 ⊢
  omega

theorem toSigned_toUnsigned_64 {v : Int} (h1 : -2 ^ 63 ≤ v) (h2 : v < 2 ^ 63) :
    toSigned 64 (toUnsigned 64 v) = v := by
  unfold toSigned toUnsigned
  norm_num at h1 h2 ⊢
  omega

theorem i32wrap_eq_self {v : Int} (h1 : -2 ^ 31 ≤ v) (h2 : v < 2 ^ 31) :
    i32wrap v = v :=
  toSigned_toUnsigned_32 h1 h2

/-- BCD encode then decode is the identity on naturals (the spec says
decode "is the exact inverse"). -/
theorem bcd_to_int_int_to_bcd (n : Nat) :
    bcd_to_int ((int_to_bcd (n : Int) : Nat) : Int) = (n : Int) := by
  unfold bcd_to_int int_to_bcd
  rw [Int.toNat_ofNat, Int.toNat_ofNat]
  rw [Nat.digits_ofDigits 16 (by norm_num) _
    (fun d hd => lt_trans (Nat.digits_lt_base (by norm_num) hd) (by norm_num))
    (fun hL => Nat.getLast_digit_ne_zero 10 (Nat.digits_ne_nil_iff_ne_zero.mp hL))]
  norm_cast
  exact Nat.ofDigits_digits 10 n

/-- A number below `10^k` has a BCD code below `16^k`. -/
theorem int_to_bcd_lt {n k : Nat} (h : n < 10 ^ k) : int_to_bcd (n : Int) < 16 ^ k := by
  unfold int_to_bcd
  rw [Int.toNat_ofNat]
  rcases Nat.eq_zero_or_pos n with h0 | h0
  · subst h0
    simp [Nat.ofDigits]
  · have hlen : (Nat.digits 10 n).length ≤ k := by
      have hle := Nat.base_pow_length_digits_le 10 n (by norm_num) (Nat.pos_iff_ne_zero.mp h0)
      have : 10 ^ (Nat.digits 10 n).length < 10 ^ (k + 1) := by
        calc 10 ^ (Nat.digits 10 n).length ≤ 10 * n := hle
          _ < 10 * 10 ^ k := by omega
          _ = 10 ^ (k + 1) := by ring
      have := (Nat.pow_lt_pow_iff_right (by norm_num : 1 < 10)).mp this
      omega
    calc Nat.ofDigits 16 (Nat.digits 10 n) < 16 ^ (Nat.digits 10 n).length :=
          Nat.ofDigits_lt_base_pow_length (by norm_num)
            (fun d hd => lt_trans (Nat.digits_lt_base (by norm_num) hd) (by norm_num))
      _ ≤ 16 ^ k := Nat.pow_le_pow_right (by norm_num) hlen

/-! ### Encoder output shape for the array directives -/

theorem format_query_s (a : List Nat) :
    format_query "%s" [QueryValue.Array a] =
      .ok ((((a.length + 1) >>> 8) &&& 0xFF) :: ((a.length + 1) &&& 0xFF) :: (a ++ [0])) := by
  simp [format_query, formatGo, fmtStep]

theorem format_query_z (a : List Nat) :
    format_query "%z" [QueryValue.Array a] =
      .ok ((a.length &&& 0xFF) :: a) := by
  simp [format_query, formatGo, fmtStep]

/-- Claim C2: `scan_query` unconditionally discards the first byte of
its input before scanning begins (the result never depends on its
value), and in particular `scan_query [0xFF, 0x01] "%b"` returns
`Ok([Number(1)])`. -/
theorem claim_C2 :
    (∀ (x y : Nat) (rest : List Nat) (fmt : String),
      scan_query (x :: rest) fmt = scan_query (y :: rest) fmt) ∧
    scan_query [0xFF, 0x01] "%b" = .ok [QueryValue.Number 1] := by
  refine ⟨fun x y rest fmt => rfl, by decide⟩

/-- Claim C9 (full-consumption postcondition): whenever `scan_query`
returns `Ok`, the scan loop ended in a state whose remaining input is
empty — the implementation checks this after the format string is
fully processed, crashing otherwise. -/
theorem claim_C9 (input : List Nat) (fmt : String) (r : List QueryValue)
    (h : scan_query input fmt = .ok r) :
    ∃ st : ScanSt,
      scanGo input.length fmt fmt.toList
        { result := [], input := input.tail, half := none, endian := none, escaped := false } = .ok st
      ∧ st.input = [] ∧ st.result = r := by
  unfold scan_query at h
  cases hgo : scanGo input.length fmt fmt.toList
      { result := [], input := input.tail, half := none, endian := none, escaped := false } with
  | ok st =>
    rw [hgo] at h
    dsimp only at h
    by_cases hlen : st.input.length = 0
    · refine ⟨st, rfl, List.length_eq_zero.mp hlen, ?_⟩
      rw [if_pos hlen] at h
      exact (RunResult.ok.injEq _ _).mp h
    · rw [if_neg hlen] at h
      cases h
  | err e => rw [hgo] at h; cases h
  | crash => rw [hgo] at h; cases h

/-- Witness for C9 at the concrete input `[0xAB, 7]` with format `%b`. -/
theorem claim_C9_witness :
    ∃ st : ScanSt,
      scanGo ([0xAB, 7] : List Nat).length "%b" "%b".toList
        { result := [], input := ([0xAB, 7] : List Nat).tail, half := none, endian := none,
          escaped := false } = .ok st
      ∧ st.input = [] ∧ st.result = [QueryValue.Number 7] :=
  claim_C9 [0xAB, 7] "%b" [QueryValue.Number 7] (by decide)

/-- Claim C10: an unpaired hex-nibble character in `format_query` is
never an error and emits nothing by itself; a pending nibble survives
an escaped directive and pairs with the next literal character. -/
theorem claim_C10 :
    (∀ c : Char, (hexDigit? c).isSome → format_query (String.mk [c]) [] = .ok []) ∧
    format_query "4" [] = .ok [] ∧
    format_query "1%b2" [QueryValue.Number 0] = .ok [0x00, 0x12] := by
  refine ⟨fun c hc => ?_, by decide, by decide⟩
  have hpc : c ≠ '%' := by
    rintro rfl
    exact absurd hc (by decide)
  have hsp : c ≠ ' ' := by
    rintro rfl
    exact absurd hc (by decide)
  simp [format_query, formatGo, fmtStep, hpc, hsp]

/-- Witness for C10 at the concrete nibble `4`. -/
theorem claim_C10_witness : format_query (String.mk ['4']) [] = .ok [] :=
  claim_C10.1 '4' (by decide)

set_option maxRecDepth 8192

/-- Claim C4: the integer directives narrow the argument to the
directive's width (wrapping) and emit its bytes big-endian, unaffected
by a recorded endianness override; with the two concrete examples of
the spec. -/
theorem claim_C4 :
    (∀ v : Int,
      format_query "%b" [QueryValue.Number v] = .ok [toUnsigned 8 v] ∧
      format_query "%<b" [QueryValue.Number v] = format_query "%b" [QueryValue.Number v] ∧
      format_query "%>b" [QueryValue.Number v] = format_query "%b" [QueryValue.Number v]) ∧
    (∀ v : Int,
      format_query "%w" [QueryValue.Number v] = .ok (beBytes 2 (toUnsigned 16 v)) ∧
      format_query "%<w" [QueryValue.Number v] = format_query "%w" [QueryValue.Number v] ∧
      format_query "%>w" [QueryValue.Number v] = format_query "%w" [QueryValue.Number v]) ∧
    (∀ v : Int,
      format_query "%d" [QueryValue.Number v] = .ok (beBytes 4 (toUnsigned 32 v)) ∧
      format_query "%<d" [QueryValue.Number v] = format_query "%d" [QueryValue.Number v] ∧
      format_query "%>d" [QueryValue.Number v] = format_query "%d" [QueryValue.Number v]) ∧
    (∀ v : Int,
      format_query "%q" [QueryValue.Number v] = .ok (beBytes 8 (toUnsigned 64 v)) ∧
      format_query "%<q" [QueryValue.Number v] = format_query "%q" [QueryValue.Number v] ∧
      format_query "%>q" [QueryValue.Number v] = format_query "%q" [QueryValue.Number v]) ∧
    format_query "%w" [QueryValue.Number (-1)] = .ok [0xFF, 0xFF] ∧
    format_query "%q" [QueryValue.Number 1] = .ok [0, 0, 0, 0, 0, 0, 0, 1] := by
  refine ⟨fun v => ⟨?_, ?_, ?_⟩, fun v => ⟨?_, ?_, ?_⟩, fun v => ⟨?_, ?_, ?_⟩,
    fun v => ⟨?_, ?_, ?_⟩, by decide, by decide⟩ <;>
    simp [format_query, formatGo, fmtStep]

/-- Counterexample to claim C5 as stated: a 256-byte array makes `%z`
emit the length byte `0`, which is not equal to the array length
`256`. -/
theorem claim_C5_counterexample :
    format_query "%z" [QueryValue.Array (List.replicate 256 0)] =
      .ok (0 :: List.replicate 256 0) ∧ (0 : Nat) ≠ 256 := by
  refine ⟨?_, by decide⟩
  have h := format_query_z (List.replicate 256 0)
  simpa using h

/-- Claim C5, amended: the emitted 2-byte (`%s`) and 1-byte (`%z`)
length prefixes are the length `+1` (resp. the length) reduced modulo
`2^16` (resp. `2^8`); the spec's concrete examples hold as stated. -/
theorem claim_C5_amended :
    (∀ a : List Nat,
      format_query "%s" [QueryValue.Array a] =
        .ok (beBytes 2 ((a.length + 1) % 2 ^ 16) ++ (a ++ [0])) ∧
      format_query "%z" [QueryValue.Array a] =
        .ok ((a.length % 2 ^ 8) :: a)) ∧
    format_query "%s" [QueryValue.Array [0x41, 0x42]] = .ok [0x00, 0x03, 0x41, 0x42, 0x00] ∧
    format_query "%z" [QueryValue.Array [0x41, 0x42]] = .ok [0x02, 0x41, 0x42] := by
  refine ⟨fun a => ⟨?_, ?_⟩, by decide, by decide⟩
  · rw [format_query_s]
    have h1 : ((a.length + 1) >>> 8) &&& 0xFF = (a.length + 1) % 2 ^ 16 / 256 := by
      rw [and_255_eq_mod, shiftRight_8_eq_div]
      rw [show (2 : Nat) ^ 16 = 256 * 256 by norm_num, Nat.mod_mul_right_div_self]
    have h2 : (a.length + 1) &&& 0xFF = (a.length + 1) % 2 ^ 16 % 256 := by
      rw [and_255_eq_mod, Nat.mod_mod_of_dvd _ (by norm_num)]
    rw [h1, h2]
    have h3 : ∀ m : Nat, m < 2 ^ 16 → beBytes 2 m = [m / 256, m % 256] := by
      intro m hm
      have : m / 256 < 256 := by omega
      simp [beBytes, Nat.mod_eq_of_lt this]
    rw [h3 _ (Nat.mod_lt _ (by norm_num))]
    rfl
  · rw [format_query_z, and_255_eq_mod]
    norm_num

/-- Counterexample to claim C7 as stated: the `z` directive does not
clear a recorded endianness override, so the `<` of a following `%<`
is rejected as an unrecognized directive character instead of being
accepted as an override. -/
theorem claim_C7_counterexample :
    format_query "%<z%<z" [QueryValue.Array [], QueryValue.Array []] =
      .err (QueryError.UnrecognizedChar '<') ∧
    format_query "%<z%<z" [QueryValue.Array [], QueryValue.Array []] ≠
      .ok [0, 0] := by
  decide

/-- Claim C7, amended: only the integer directives `b`/`w`/`d`/`q`
clear a recorded endianness override (each of the four is shown to
clear it, in both the encoder and the decoder, by a subsequent
override being accepted again); after every other directive — `x`,
`s`, `z`, `*`, `B`, `W` in the encoder and `x`, `s`, `z`, `*`, `#`,
`B`, `W`, `?` in the decoder — the override stays recorded, so a later
`<` or `>` after `%` is rejected as unrecognized. -/
theorem claim_C7_amended :
    (∀ v1 v2 : Int, format_query "%<b%>b" [QueryValue.Number v1, QueryValue.Number v2] =
      .ok [toUnsigned 8 v1, toUnsigned 8 v2]) ∧
    (∀ v1 v2 : Int, format_query "%<w%>w" [QueryValue.Number v1, QueryValue.Number v2] =
      .ok (beBytes 2 (toUnsigned 16 v1) ++ beBytes 2 (toUnsigned 16 v2))) ∧
    (∀ v1 v2 : Int, format_query "%<d%>d" [QueryValue.Number v1, QueryValue.Number v2] =
      .ok (beBytes 4 (toUnsigned 32 v1) ++ beBytes 4 (toUnsigned 32 v2))) ∧
    (∀ v1 v2 : Int, format_query "%<q%>q" [QueryValue.Number v1, QueryValue.Number v2] =
      .ok (beBytes 8 (toUnsigned 64 v1) ++ beBytes 8 (toUnsigned 64 v2))) ∧
    format_query "%<x%<b" [QueryValue.Array [], QueryValue.Number 0] =
      .err (QueryError.UnrecognizedChar '<') ∧
    format_query "%<s%<b" [QueryValue.Array [], QueryValue.Number 0] =
      .err (QueryError.UnrecognizedChar '<') ∧
    format_query "%<z%<b" [QueryValue.Array [], QueryValue.Number 0] =
      .err (QueryError.UnrecognizedChar '<') ∧
    format_query "%<*%<b" [QueryValue.Array [], QueryValue.Number 0] =
      .err (QueryError.UnrecognizedChar '<') ∧
    format_query "%<B%<b" [QueryValue.Number 0, QueryValue.Number 0] =
      .err (QueryError.UnrecognizedChar '<') ∧
    format_query "%<W%<b" [QueryValue.Number 0, QueryValue.Number 0] =
      .err (QueryError.UnrecognizedChar '<') ∧
    scan_query [9, 1, 2] "%<b%>b" = .ok [QueryValue.Number 1, QueryValue.Number 2] ∧
    scan_query [9, 1, 2, 3, 4] "%<w%>w" =
      .ok [QueryValue.Number 258, QueryValue.Number 772] ∧
    scan_query [9, 0, 0, 0, 1, 0, 0, 0, 2] "%<d%>d" =
      .ok [QueryValue.Number 1, QueryValue.Number 2] ∧
    scan_query [9, 0, 0, 0, 0, 0, 0, 0, 1, 0, 0, 0, 0, 0, 0, 0, 2] "%<q%>q" =
      .ok [QueryValue.Number 1, QueryValue.Number 2] ∧
    scan_query [9, 0, 0] "%<x%<b" = .err (QueryError.UnrecognizedChar '<') ∧
    scan_query [9, 0, 0] "%<s%<b" = .err (QueryError.UnrecognizedChar '<') ∧
    scan_query [9, 0] "%<z%<b" = .err (QueryError.UnrecognizedChar '<') ∧
    scan_query [9] "%<*%<b" = .err (QueryError.UnrecognizedChar '<') ∧
    scan_query [9] "%<#%<b" = .err (QueryError.UnrecognizedChar '<') ∧
    scan_query [9, 0x42] "%<B%<b" = .err (QueryError.UnrecognizedChar '<') ∧
    scan_query [9, 0x12, 0x34] "%<W%<b" = .err (QueryError.UnrecognizedChar '<') ∧
    scan_query [9, 1] "%<?%<b" = .err (QueryError.UnrecognizedChar '<') := by
  refine ⟨fun v1 v2 => ?_, fun v1 v2 => ?_, fun v1 v2 => ?_, fun v1 v2 => ?_, by decide⟩ <;>
    simp [format_query, formatGo, fmtStep]

/-- Claim C8: the integer directives decode exactly 1/2/4/8 big-endian
bytes; `w`/`d`/`q` sign-extend while `b` is unsigned, so a decoded
`%b` is always in `[0, 255]`; with the spec's concrete examples. -/
theorem claim_C8 :
    (∀ x b1 : Nat, b1 < 256 →
      scan_query [x, b1] "%b" = .ok [QueryValue.Number (b1 : Int)] ∧
      0 ≤ (b1 : Int) ∧ (b1 : Int) ≤ 255) ∧
    (∀ x b1 b2 : Nat, b1 < 256 → b2 < 256 →
      scan_query [x, b1, b2] "%w" =
        .ok [QueryValue.Number (toSigned 16 (bytesToNat [b1, b2]))]) ∧
    (∀ x b1 b2 b3 b4 : Nat, b1 < 256 → b2 < 256 → b3 < 256 → b4 < 256 →
      scan_query [x, b1, b2, b3, b4] "%d" =
        .ok [QueryValue.Number (toSigned 32 (bytesToNat [b1, b2, b3, b4]))]) ∧
    (∀ x b1 b2 b3 b4 b5 b6 b7 b8 : Nat, b1 < 256 → b2 < 256 → b3 < 256 → b4 < 256 →
        b5 < 256 → b6 < 256 → b7 < 256 → b8 < 256 →
      scan_query [x, b1, b2, b3, b4, b5, b6, b7, b8] "%q" =
        .ok [QueryValue.Number (toSigned 64 (bytesToNat [b1, b2, b3, b4, b5, b6, b7, b8]))]) ∧
    scan_query [0, 0xFF] "%b" = .ok [QueryValue.Number 255] ∧
    scan_query [0, 0xFF, 0xFF] "%w" = .ok [QueryValue.Number (-1)] := by
  refine ⟨fun x b1 h1 => ⟨?_, by omega, by omega⟩,
    fun x b1 b2 h1 h2 => ?_, fun x b1 b2 b3 b4 h1 h2 h3 h4 => ?_,
    fun x b1 b2 b3 b4 b5 b6 b7 b8 h1 h2 h3 h4 h5 h6 h7 h8 => ?_,
    by decide, by decide⟩ <;>
    simp [scan_query, scanGo, scanStep, bytesToNat]

/-- Witness for C8 at concrete bytes. -/
theorem claim_C8_witness :
    scan_query [0, 7] "%b" = .ok [QueryValue.Number ((7 : Nat) : Int)] ∧
    0 ≤ ((7 : Nat) : Int) ∧ ((7 : Nat) : Int) ≤ 255 :=
  claim_C8.1 0 7 (by decide)

/-! ### Where the decoder's input pointer can go, and what an
`InputMismatch` error says about it -/

theorem scanStep_ok_suffix {iL : Nat} {fmt : String} {c : Char} {st st2 : ScanSt}
    (h : scanStep iL fmt c st = .ok st2) : st2.input <:+ st.input := by
  unfold scanStep at h
  repeat' first
    | split at h
    | dsimp only at h
  all_goals try (cases h)
  all_goals try simp_all
  all_goals first
    | exact List.suffix_refl _
    | exact List.tail_suffix _
    | exact List.drop_suffix _ _
    | exact List.suffix_cons _ _
    | exact (List.drop_suffix _ _).trans (List.suffix_cons _ _)
    | exact (List.drop_suffix _ _).trans (List.drop_suffix _ _)
    | exact (List.suffix_cons _ _).trans (List.suffix_cons _ _)

theorem scanStep_inputMismatch {iL : Nat} {fmt : String} {c : Char} {st : ScanSt}
    {i x a : Nat} {s : String}
    (h : scanStep iL fmt c st = .err (QueryError.InputMismatch i x a s)) :
    s = fmt ∧ x ≠ a ∧ ∃ rest, st.input = a :: rest ∧ i = iL - rest.length - 1 := by
  unfold scanStep at h
  repeat' first
    | split at h
    | dsimp only at h
  all_goals try (cases h)
  all_goals exact ⟨rfl, by assumption, _, by assumption, rfl⟩

theorem scanGo_inputMismatch {input0 : List Nat} {fmt : String} {i x a : Nat} {s : String} :
    ∀ (cs : List Char) (st : ScanSt), st.input <:+ input0 →
      scanGo input0.length fmt cs st = .err (QueryError.InputMismatch i x a s) →
      s = fmt ∧ x ≠ a ∧ input0[i]? = some a := by
  intro cs
  induction cs with
  | nil =>
    intro st hsuf h
    simp [scanGo] at h
  | cons c cs ih =>
    intro st hsuf h
    rw [scanGo] at h
    cases hstep : scanStep input0.length fmt c st with
    | ok st2 =>
      rw [hstep] at h
      dsimp only at h
      exact ih st2 ((scanStep_ok_suffix hstep).trans hsuf) h
    | err e =>
      rw [hstep] at h
      dsimp only at h
      injection h with h
      subst h
      obtain ⟨hs, hxa, rest, hin, hi⟩ := scanStep_inputMismatch hstep
      refine ⟨hs, hxa, ?_⟩
      rw [hin] at hsuf
      obtain ⟨pre, hpre⟩ := hsuf
      have hlen : input0.length = pre.length + rest.length + 1 := by
        rw [← hpre]
        simp
        omega
      have hieq : i = pre.length := by omega
      subst hieq
      rw [← hpre, List.getElem?_append_right (le_refl pre.length)]
      simp
    | crash =>
      rw [hstep] at h
      dsimp only at h
      cases h

/-- Counterexample to claim C3 as stated: with input `[0, 5]` and
format `"01"` the mismatching byte `5` sits at offset `0` of the
post-framing-byte input, yet the reported index is `1`. -/
theorem claim_C3_counterexample :
    scan_query [0, 5] "01" = .err (QueryError.InputMismatch 1 1 5 "01") ∧
    scan_query [0, 5] "01" ≠ .err (QueryError.InputMismatch 0 1 5 "01") := by
  decide

/-- Claim C3, amended: on a literal mismatch, `scan_query` fails with
`InputMismatch` whose `index` is the 0-based offset of the mismatching
byte within the **original** input (counting the discarded framing
byte, i.e. post-framing offset plus one), whose `actual` is the input
byte found there, whose `expected` differs from it, and whose
`format_string` is the full format string. -/
theorem claim_C3_amended (input : List Nat) (fmt : String) (i x a : Nat) (s : String)
    (h : scan_query input fmt = .err (QueryError.InputMismatch i x a s)) :
    s = fmt ∧ x ≠ a ∧ input[i]? = some a := by
  unfold scan_query at h
  cases hgo : scanGo input.length fmt fmt.toList
      { result := [], input := input.tail, half := none, endian := none, escaped := false } with
  | ok st =>
    rw [hgo] at h
    dsimp only at h
    by_cases hlen : st.input.length = 0
    · rw [if_pos hlen] at h; cases h
    · rw [if_neg hlen] at h; cases h
  | err e =>
    rw [hgo] at h
    dsimp only at h
    injection h with h
    subst h
    exact scanGo_inputMismatch fmt.toList _ (List.tail_suffix input) hgo
  | crash =>
    rw [hgo] at h
    dsimp only at h
    cases h

/-- Witness for the amended C3 at the concrete input `[0, 5]` with
format `"01"`. -/
theorem claim_C3_witness :
    "01" = "01" ∧ (1 : Nat) ≠ 5 ∧ ([0, 5] : List Nat)[1]? = some 5 :=
  claim_C3_amended [0, 5] "01" 1 1 5 "01" (by decide)

/-! ### The decoder treats `s` exactly like `x` (up to the format
string recorded inside `InputMismatch` errors) -/

/-- Replaces the character `s` by `x`. -/
def replSX (c : Char) : Char := if c = 's' then 'x' else c

/-- A format string with every `s` replaced by `x`. -/
def sxFmt (fmt : String) : String := String.mk (fmt.toList.map replSX)

/-- A scan state whose pending literal nibble (the only place a format
character is stored) has `s` replaced by `x`. -/
def sxSt (st : ScanSt) : ScanSt := { st with half := st.half.map replSX }

/-- Blanks out the `format_string` field of an `InputMismatch`. -/
def eraseE : QueryError → QueryError
  | QueryError.InputMismatch i x a _ => QueryError.InputMismatch i x a ""
  | e => e

/-- Blanks out the `format_string` field of an error result. -/
def eraseR : RunResult (List QueryValue) → RunResult (List QueryValue)
  | .err e => .err (eraseE e)
  | r => r

/-- Correspondence between the runs of the two scanners: equal states
up to `sxSt`, equal errors up to `eraseE`, matching crashes. -/
def errRel : RunResult ScanSt → RunResult ScanSt → Prop
  | .ok s1, .ok s2 => s1 = sxSt s2
  | .err e1, .err e2 => eraseE e1 = eraseE e2
  | .crash, .crash => True
  | _, _ => False

theorem replSX_s : replSX 's' = 'x' := rfl

theorem replSX_of_ne {c : Char} (h : c ≠ 's') : replSX c = c := if_neg h

theorem parseHexByte_sx (h c : Char) :
    parseHexByte (replSX h) (replSX c) = parseHexByte h c := by
  have hx : hexDigit? 'x' = none := by decide
  have hs : hexDigit? 's' = none := by decide
  by_cases hh : h = 's'
  · subst hh
    by_cases hc : c = 's'
    · subst hc; decide
    · rw [replSX_s, replSX_of_ne hc]
      unfold parseHexByte
      rw [if_neg (by decide : ¬('x' = '+')), if_neg (by decide : ¬('s' = '+')), hx, hs]
  · by_cases hc : c = 's'
    · subst hc
      rw [replSX_of_ne hh, replSX_s]
      unfold parseHexByte
      by_cases hp : h = '+'
      · rw [if_pos hp, if_pos hp, hx, hs]
      · rw [if_neg hp, if_neg hp, hx, hs]
    · rw [replSX_of_ne hh, replSX_of_ne hc]

/-- Maps `sxSt` over the state of an `ok` outcome. -/
def sxRR : RunResult ScanSt → RunResult ScanSt
  | .ok s => .ok (sxSt s)
  | .err e => .err e
  | .crash => .crash

theorem errRel_sxRR (r : RunResult ScanSt) : errRel (sxRR r) r := by
  cases r <;> simp [errRel, sxRR]

/-- In escape mode the step neither reads nor emits the pending
nibble, and its errors do not mention the format string: the pending
nibble is passed through and the format string is irrelevant. -/
theorem scanStep_escaped (iL : Nat) (fmt fmt' : String) (c : Char) (res : List QueryValue)
    (inp : List Nat) (h2 endi : Option Char) :
    scanStep iL fmt' c ⟨res, inp, h2.map replSX, endi, true⟩ =
      sxRR (scanStep iL fmt c ⟨res, inp, h2, endi, true⟩) := by
  unfold scanStep
  dsimp only
  simp only [eq_self_iff_true, if_true]
  by_cases hov : endi = none ∧ (c = '<' ∨ c = '>')
  · rw [if_pos hov, if_pos hov]
    simp [sxRR, sxSt]
  rw [if_neg hov, if_neg hov]
  by_cases hq : c = '?'
  · rw [if_pos hq, if_pos hq]
    simp [sxRR, sxSt]
  rw [if_neg hq, if_neg hq]
  by_cases hint : c = 'b' ∨ c = 'w' ∨ c = 'd' ∨ c = 'q'
  · rw [if_pos hint, if_pos hint]
    split_ifs <;> simp [sxRR, sxSt]
  rw [if_neg hint, if_neg hint]
  by_cases hxsz : c = 'x' ∨ c = 's' ∨ c = 'z'
  · rw [if_pos hxsz, if_pos hxsz]
    by_cases hz : c = 'z'
    · rw [if_pos hz, if_pos hz]
      cases inp with
      | nil => simp [sxRR]
      | cons a t =>
        dsimp only
        split_ifs <;> simp [sxRR, sxSt]
    · rw [if_neg hz, if_neg hz]
      split_ifs <;> simp [sxRR, sxSt]
  rw [if_neg hxsz, if_neg hxsz]
  by_cases hraw : c = '*' ∨ c = '#'
  · rw [if_pos hraw, if_pos hraw]
    simp [sxRR, sxSt]
  rw [if_neg hraw, if_neg hraw]
  by_cases hB : c = 'B'
  · rw [if_pos hB, if_pos hB]
    cases inp <;> simp [sxRR, sxSt]
  rw [if_neg hB, if_neg hB]
  by_cases hW : c = 'W'
  · rw [if_pos hW, if_pos hW]
    rcases inp with _ | ⟨a1, _ | ⟨a2, t⟩⟩ <;> simp [sxRR, sxSt]
  rw [if_neg hW, if_neg hW]
  simp [sxRR]

/-- In escape mode the decoder treats `x` and `s` identically. -/
theorem scanStep_x_eq_s (iL : Nat) (fmt : String) (res : List QueryValue)
    (inp : List Nat) (half endi : Option Char) :
    scanStep iL fmt 'x' ⟨res, inp, half, endi, true⟩ =
      scanStep iL fmt 's' ⟨res, inp, half, endi, true⟩ := by
  unfold scanStep
  simp

theorem scanStep_sx (iL : Nat) (fmt fmt' : String) (c : Char) (st : ScanSt) :
    errRel (scanStep iL fmt' (replSX c) (sxSt st)) (scanStep iL fmt c st) := by
  obtain ⟨res, inp, half, endi, esc⟩ := st
  cases esc
  · -- not in escape mode
    by_cases hpc : c = '%'
    · subst hpc
      rw [replSX_of_ne (by decide)]
      rcases half with _ | hh <;> simp [scanStep, sxSt, errRel]
    · by_cases hsc : c = ' '
      · subst hsc
        rw [replSX_of_ne (by decide)]
        simp [scanStep, sxSt, errRel]
      · have hl1 : replSX c ≠ '%' := by
          unfold replSX
          split_ifs with h
          · decide
          · exact hpc
        have hl2 : replSX c ≠ ' ' := by
          unfold replSX
          split_ifs with h
          · decide
          · exact hsc
        rcases half with _ | hh
        · simp [scanStep, sxSt, errRel, hpc, hsc, hl1, hl2]
        · rcases inp with _ | ⟨b, rest⟩
          · simp [scanStep, sxSt, errRel, hpc, hsc, hl1, hl2]
          · have hpx := parseHexByte_sx hh c
            simp only [scanStep, sxSt, Option.map, Bool.false_eq_true, if_false,
              if_neg hpc, if_neg hsc, if_neg hl1, if_neg hl2]
            try dsimp only
            rw [hpx]
            cases hv : parseHexByte hh c with
            | none => simp [errRel]
            | some fv =>
              by_cases hvb : fv = b <;> simp [hvb, errRel, eraseE, sxSt]
  · -- escape mode
    show errRel (scanStep iL fmt' (replSX c) ⟨res, inp, half.map replSX, endi, true⟩)
      (scanStep iL fmt c ⟨res, inp, half, endi, true⟩)
    by_cases hc : c = 's'
    · subst hc
      rw [replSX_s]
      rw [scanStep_x_eq_s]
      rw [scanStep_escaped iL fmt fmt']
      exact errRel_sxRR _
    · rw [replSX_of_ne hc]
      rw [scanStep_escaped iL fmt fmt']
      exact errRel_sxRR _

theorem scanGo_sx (iL : Nat) (fmt fmt' : String) :
    ∀ (cs : List Char) (st : ScanSt),
      errRel (scanGo iL fmt' (cs.map replSX) (sxSt st)) (scanGo iL fmt cs st) := by
  intro cs
  induction cs with
  | nil =>
    intro st
    simp [scanGo, errRel]
  | cons c cs ih =>
    intro st
    rw [List.map_cons, scanGo, scanGo]
    have hstep := scanStep_sx iL fmt fmt' c st
    cases h2 : scanStep iL fmt c st with
    | ok st2 =>
      rw [h2] at hstep
      cases h1 : scanStep iL fmt' (replSX c) (sxSt st) with
      | ok s1 =>
        rw [h1] at hstep
        have hs : s1 = sxSt st2 := hstep
        rw [hs]
        dsimp only
        exact ih st2
      | err e1 => rw [h1] at hstep; exact absurd hstep (by simp [errRel])
      | crash => rw [h1] at hstep; exact absurd hstep (by simp [errRel])
    | err e =>
      rw [h2] at hstep
      cases h1 : scanStep iL fmt' (replSX c) (sxSt st) with
      | ok s1 => rw [h1] at hstep; exact absurd hstep (by simp [errRel])
      | err e1 =>
        rw [h1] at hstep
        dsimp only
        exact hstep
      | crash => rw [h1] at hstep; exact absurd hstep (by simp [errRel])
    | crash =>
      rw [h2] at hstep
      cases h1 : scanStep iL fmt' (replSX c) (sxSt st) with
      | ok s1 => rw [h1] at hstep; exact absurd hstep (by simp [errRel])
      | err e1 => rw [h1] at hstep; exact absurd hstep (by simp [errRel])
      | crash => trivial

/-- Counterexample to claim C6 as stated: the two scan results are not
*equal* on a literal-byte mismatch, because the `InputMismatch` error
embeds the format string, which differs between the `s` and `x`
versions. -/
theorem claim_C6_counterexample :
    scan_query [0, 5] "02%s" = .err (QueryError.InputMismatch 1 2 5 "02%s") ∧
    scan_query [0, 5] "02%x" = .err (QueryError.InputMismatch 1 2 5 "02%x") ∧
    scan_query [0, 5] "02%s" ≠ scan_query [0, 5] "02%x" := by
  refine ⟨by decide, by decide, by decide⟩

/-- Claim C6, amended: at decode time `s` behaves identically to `x`:
replacing every `s` character of the format by `x` yields the same
`Ok` values, the same crashes, and the same errors up to the
`format_string` field recorded inside `InputMismatch` (which
necessarily carries the respective format string); in particular no
trailing-NUL trimming is performed for `s`. -/
theorem claim_C6_amended (input : List Nat) (fmt : String) :
    eraseR (scan_query input (sxFmt fmt)) = eraseR (scan_query input fmt) := by
  unfold scan_query
  have hto : (sxFmt fmt).toList = fmt.toList.map replSX := rfl
  rw [hto]
  have h := scanGo_sx input.length fmt (sxFmt fmt) fmt.toList
      { result := [], input := input.tail, half := none, endian := none, escaped := false }
  have hsx : sxSt { result := [], input := input.tail, half := none, endian := none, escaped := false } = ({ result := [], input := input.tail, half := none, endian := none, escaped := false } : ScanSt) := rfl
  rw [hsx] at h
  cases h2 : scanGo input.length fmt fmt.toList
      { result := [], input := input.tail, half := none, endian := none, escaped := false } with
  | ok st2 =>
    rw [h2] at h
    cases h1 : scanGo input.length (sxFmt fmt) (fmt.toList.map replSX)
        { result := [], input := input.tail, half := none, endian := none, escaped := false } with
    | ok s1 =>
      rw [h1] at h
      have hs : s1 = sxSt st2 := h
      rw [hs]
      simp [sxSt]
    | err e1 => rw [h1] at h; exact absurd h (by simp [errRel])
    | crash => rw [h1] at h; exact absurd h (by simp [errRel])
  | err e =>
    rw [h2] at h
    cases h1 : scanGo input.length (sxFmt fmt) (fmt.toList.map replSX)
        { result := [], input := input.tail, half := none, endian := none, escaped := false } with
    | ok s1 => rw [h1] at h; exact absurd h (by simp [errRel])
    | err e1 =>
      rw [h1] at h
      have he : eraseE e1 = eraseE e := h
      simp [eraseR, he]
    | crash => rw [h1] at h; exact absurd h (by simp [errRel])
  | crash =>
    rw [h2] at h
    cases h1 : scanGo input.length (sxFmt fmt) (fmt.toList.map replSX)
        { result := [], input := input.tail, half := none, endian := none, escaped := false } with
    | ok s1 => rw [h1] at h; exact absurd h (by simp [errRel])
    | err e1 => rw [h1] at h; exact absurd h (by simp [errRel])
    | crash => rfl

/-! ### Round trip for literal-free formats -/

/-- The directive kinds named by the round-trip property. -/
inductive Dir where
  | b | w | d | q | x | z | B | W
deriving DecidableEq, Repr

/-- The format character of a directive. -/
def dirChar : Dir → Char
  | .b => 'b'
  | .w => 'w'
  | .d => 'd'
  | .q => 'q'
  | .x => 'x'
  | .z => 'z'
  | .B => 'B'
  | .W => 'W'

/-- The character list of a literal-free format built from directives:
each directive is escaped by `%`. -/
def fmtChars : List Dir → List Char
  | [] => []
  | dir :: ds => '%' :: dirChar dir :: fmtChars ds

/-- The literal-free format string built from a directive list. -/
def fmtOfDirs (ds : List Dir) : String := String.mk (fmtChars ds)

/-- The argument list matches the directive list: each directive gets
its expected variant, with the value inside the range the directive's
wire width (and, for `B`/`W`, its BCD code) represents faithfully. -/
inductive ArgsMatch : List Dir → List QueryValue → Prop where
  | nil : ArgsMatch [] []
  | b {v : Int} {ds args} : 0 ≤ v → v < (2 : Int) ^ 8 →
      ArgsMatch ds args → ArgsMatch (.b :: ds) (QueryValue.Number v :: args)
  | w {v : Int} {ds args} : -(2 : Int) ^ 15 ≤ v → v < (2 : Int) ^ 15 →
      ArgsMatch ds args → ArgsMatch (.w :: ds) (QueryValue.Number v :: args)
  | d {v : Int} {ds args} : -(2 : Int) ^ 31 ≤ v → v < (2 : Int) ^ 31 →
      ArgsMatch ds args → ArgsMatch (.d :: ds) (QueryValue.Number v :: args)
  | q {v : Int} {ds args} : -(2 : Int) ^ 63 ≤ v → v < (2 : Int) ^ 63 →
      ArgsMatch ds args → ArgsMatch (.q :: ds) (QueryValue.Number v :: args)
  | x {a : List Nat} {ds args} : a.length < 2 ^ 16 → (∀ byte ∈ a, byte < 256) →
      ArgsMatch ds args → ArgsMatch (.x :: ds) (QueryValue.Array a :: args)
  | z {a : List Nat} {ds args} : a.length < 2 ^ 8 → (∀ byte ∈ a, byte < 256) →
      ArgsMatch ds args → ArgsMatch (.z :: ds) (QueryValue.Array a :: args)
  | B {v : Int} {ds args} : 0 ≤ v → v < 100 →
      ArgsMatch ds args → ArgsMatch (.B :: ds) (QueryValue.Number v :: args)
  | W {v : Int} {ds args} : 0 ≤ v → v < 10000 →
      ArgsMatch ds args → ArgsMatch (.W :: ds) (QueryValue.Number v :: args)

/-- The byte string `format_query` produces for a matching
directive/argument pair. -/
def encBytes : List Dir → List QueryValue → List Nat
  | .b :: ds, QueryValue.Number v :: args => toUnsigned 8 v :: encBytes ds args
  | .w :: ds, QueryValue.Number v :: args => beBytes 2 (toUnsigned 16 v) ++ encBytes ds args
  | .d :: ds, QueryValue.Number v :: args => beBytes 4 (toUnsigned 32 v) ++ encBytes ds args
  | .q :: ds, QueryValue.Number v :: args => beBytes 8 (toUnsigned 64 v) ++ encBytes ds args
  | .x :: ds, QueryValue.Array a :: args =>
      ((a.length >>> 8) &&& 0xFF) :: (a.length &&& 0xFF) :: (a ++ encBytes ds args)
  | .z :: ds, QueryValue.Array a :: args => (a.length &&& 0xFF) :: (a ++ encBytes ds args)
  | .B :: ds, QueryValue.Number v :: args =>
      (int_to_bcd (i32wrap v) &&& 0xFF) :: encBytes ds args
  | .W :: ds, QueryValue.Number v :: args =>
      ((int_to_bcd (i32wrap v) >>> 8) &&& 0xFF) :: (int_to_bcd (i32wrap v) &&& 0xFF) ::
        encBytes ds args
  | _, _ => []

theorem len_recombine {L : Nat} (hL : L < 65536) :
    ((L >>> 8) &&& 0xFF) * 256 + (L &&& 0xFF) = L := by
  rw [and_255_eq_mod, and_255_eq_mod, shiftRight_8_eq_div]
  omega

theorem w_recombine {C : Nat} (hC : C < 65536) :
    ((C >>> 8) &&& 0xFF) <<< 8 ||| (C &&& 0xFF) = C := by
  rw [and_255_eq_mod, and_255_eq_mod, shiftRight_8_eq_div]
  have h1 : C / 256 % 256 = C / 256 := by omega
  rw [h1, Nat.shiftLeft_eq]
  have h2 : C % 256 < 2 ^ 8 := by omega
  have h3 := Nat.mul_add_lt_is_or h2 (C / 256)
  rw [Nat.mul_comm (C / 256) (2 ^ 8)]
  rw [← h3]
  norm_num
  omega

/-- Symbolic execution of the encoder over a literal-free format. -/
theorem formatGo_dirs {ds : List Dir} {args : List QueryValue} (h : ArgsMatch ds args) :
    ∀ (res : List Nat) (rest : List QueryValue),
      formatGo (fmtChars ds) ⟨res, none, args ++ rest, none, false⟩ =
        .ok ⟨res ++ encBytes ds args, none, rest, none, false⟩ := by
  induction h with
  | nil =>
    intro res rest
    simp [fmtChars, formatGo, encBytes]
  | b h1 h2 hm ih =>
    intro res rest
    simp [fmtChars, dirChar, formatGo, fmtStep, encBytes, ih]
  | w h1 h2 hm ih =>
    intro res rest
    simp [fmtChars, dirChar, formatGo, fmtStep, encBytes, ih]
  | d h1 h2 hm ih =>
    intro res rest
    simp [fmtChars, dirChar, formatGo, fmtStep, encBytes, ih]
  | q h1 h2 hm ih =>
    intro res rest
    simp [fmtChars, dirChar, formatGo, fmtStep, encBytes, ih]
  | x hlen hbytes hm ih =>
    intro res rest
    simp [fmtChars, dirChar, formatGo, fmtStep, encBytes, ih, List.append_assoc]
  | z hlen hbytes hm ih =>
    intro res rest
    simp [fmtChars, dirChar, formatGo, fmtStep, encBytes, ih, List.append_assoc]
  | B h1 h2 hm ih =>
    intro res rest
    simp [fmtChars, dirChar, formatGo, fmtStep, encBytes, ih]
  | W h1 h2 hm ih =>
    intro res rest
    simp [fmtChars, dirChar, formatGo, fmtStep, encBytes, ih]

/-- Symbolic execution of the decoder over a literal-free format fed
with the encoder's output. -/
theorem scanGo_dirs (iL : Nat) (fmt : String) {ds : List Dir} {args : List QueryValue}
    (h : ArgsMatch ds args) :
    ∀ (res : List QueryValue) (tail0 : List Nat),
      scanGo iL fmt (fmtChars ds) ⟨res, encBytes ds args ++ tail0, none, none, false⟩ =
        .ok ⟨res ++ args, tail0, none, none, false⟩ := by
  induction h with
  | nil =>
    intro res tail0
    simp [fmtChars, scanGo, encBytes]
  | b h1 h2 hm ih =>
    intro res tail0
    rename_i v ds1 args1
    have hv : ((toUnsigned 8 v : Nat) : Int) = v := toUnsigned_eq_self h1 h2
    simp [fmtChars, dirChar, encBytes, scanGo, scanStep, bytesToNat, hv, ih]
  | w h1 h2 hm ih =>
    intro res tail0
    rename_i v ds1 args1
    have hu : toUnsigned 16 v < 256 ^ 2 := by
      have := toUnsigned_lt 16 v
      norm_num at this ⊢
      exact this
    simp [fmtChars, dirChar, encBytes, scanGo, scanStep, List.append_assoc,
      List.take_left' (beBytes_length 2 (toUnsigned 16 v)),
      List.drop_left' (beBytes_length 2 (toUnsigned 16 v)),
      bytesToNat_beBytes hu, beBytes_length, toSigned_toUnsigned_16 h1 h2, ih]
  | d h1 h2 hm ih =>
    intro res tail0
    rename_i v ds1 args1
    have hu : toUnsigned 32 v < 256 ^ 4 := by
      have := toUnsigned_lt 32 v
      norm_num at this ⊢
      exact this
    simp [fmtChars, dirChar, encBytes, scanGo, scanStep, List.append_assoc,
      List.take_left' (beBytes_length 4 (toUnsigned 32 v)),
      List.drop_left' (beBytes_length 4 (toUnsigned 32 v)),
      bytesToNat_beBytes hu, beBytes_length, toSigned_toUnsigned_32 h1 h2, ih]
  | q h1 h2 hm ih =>
    intro res tail0
    rename_i v ds1 args1
    have hu : toUnsigned 64 v < 256 ^ 8 := by
      have := toUnsigned_lt 64 v
      norm_num at this ⊢
      exact this
    simp [fmtChars, dirChar, encBytes, scanGo, scanStep, List.append_assoc,
      List.take_left' (beBytes_length 8 (toUnsigned 64 v)),
      List.drop_left' (beBytes_length 8 (toUnsigned 64 v)),
      bytesToNat_beBytes hu, beBytes_length, toSigned_toUnsigned_64 h1 h2, ih]
  | x hlen hbytes hm ih =>
    intro res tail0
    rename_i a ds1 args1
    have hrec : ((a.length >>> 8) &&& 0xFF) * 256 + (a.length &&& 0xFF) = a.length :=
      len_recombine (by norm_num at hlen ⊢; omega)
    simp [fmtChars, dirChar, encBytes, scanGo, scanStep, bytesToNat, List.append_assoc,
      hrec, List.take_left, List.drop_left, ih]
  | z hlen hbytes hm ih =>
    intro res tail0
    rename_i a ds1 args1
    have hlb : a.length &&& 0xFF = a.length := by
      rw [and_255_eq_mod]
      norm_num at hlen
      omega
    simp [fmtChars, dirChar, encBytes, scanGo, scanStep, List.append_assoc,
      hlb, List.take_left, List.drop_left, ih]
  | B h1 h2 hm ih =>
    intro res tail0
    rename_i v ds1 args1
    have hw : i32wrap v = v :=
      i32wrap_eq_self (le_trans (by norm_num) h1) (lt_trans h2 (by norm_num))
    have hv0 : ((v.toNat : Nat) : Int) = v := Int.toNat_of_nonneg h1
    have hlt : int_to_bcd v < 256 := by
      have hn : v.toNat < 10 ^ 2 := by omega
      have := int_to_bcd_lt hn
      rw [hv0] at this
      norm_num at this
      exact this
    have hmask : int_to_bcd v &&& 0xFF = int_to_bcd v := by
      rw [and_255_eq_mod]
      omega
    have hbcd := bcd_to_int_int_to_bcd v.toNat
    rw [hv0] at hbcd
    simp [fmtChars, dirChar, encBytes, scanGo, scanStep, hw, hmask, hbcd, ih]
  | W h1 h2 hm ih =>
    intro res tail0
    rename_i v ds1 args1
    have hw : i32wrap v = v :=
      i32wrap_eq_self (le_trans (by norm_num) h1) (lt_trans h2 (by norm_num))
    have hv0 : ((v.toNat : Nat) : Int) = v := Int.toNat_of_nonneg h1
    have hlt : int_to_bcd v < 65536 := by
      have hn : v.toNat < 10 ^ 4 := by omega
      have := int_to_bcd_lt hn
      rw [hv0] at this
      norm_num at this
      exact this
    have hrec : ((int_to_bcd v >>> 8) &&& 0xFF) <<< 8 ||| (int_to_bcd v &&& 0xFF) =
        int_to_bcd v := w_recombine hlt
    have hbcd := bcd_to_int_int_to_bcd v.toNat
    rw [hv0] at hbcd
    simp [fmtChars, dirChar, encBytes, scanGo, scanStep, hw, hrec, hbcd, ih]

/-- Counterexample to claim C1 as stated: even for the one-directive
format `%b` with the matching argument `Number 1`, the decoder
discards the first byte of the encoder's output as a framing byte, so
it crashes reading past the end instead of returning `Ok([Number 1])`;
and even with a framing byte supplied, an out-of-range `Number 256`
wraps during encoding and decodes to `Number 0`. -/
theorem claim_C1_counterexample :
    format_query "%b" [QueryValue.Number 1] = .ok [1] ∧
    scan_query [1] "%b" = .crash ∧
    format_query "%b" [QueryValue.Number 256] = .ok [0] ∧
    scan_query [255, 0] "%b" = .ok [QueryValue.Number 0] ∧
    QueryValue.Number 0 ≠ QueryValue.Number 256 := by
  refine ⟨by decide, by decide, by decide, by decide, by decide⟩

/-- Claim C1, amended: for every literal-free format over the
directive kinds `b`/`w`/`d`/`q`/`x`/`z`/`B`/`W` and every matching
argument list whose values are within each directive's faithfully
representable range, encoding succeeds, and decoding the encoder's
output *with one arbitrary framing byte prepended* (the decoder
unconditionally discards the first input byte) returns exactly the
original arguments. -/
theorem claim_C1_amended {ds : List Dir} {args : List QueryValue} (h : ArgsMatch ds args) :
    format_query (fmtOfDirs ds) args = .ok (encBytes ds args) ∧
    ∀ x : Nat, scan_query (x :: encBytes ds args) (fmtOfDirs ds) = .ok args := by
  constructor
  · unfold format_query
    have hto : (fmtOfDirs ds).toList = fmtChars ds := rfl
    rw [hto]
    have hgo := formatGo_dirs h [] []
    rw [List.append_nil] at hgo
    rw [hgo]
    simp
  · intro x
    unfold scan_query
    have hto : (fmtOfDirs ds).toList = fmtChars ds := rfl
    rw [hto]
    have hgo := scanGo_dirs (x :: encBytes ds args).length (fmtOfDirs ds) h [] []
    rw [List.append_nil] at hgo
    simp only [List.tail_cons]
    rw [hgo]
    simp

/-- Witness for the amended C1: the round trip through `%w` with the
negative value `-2` and framing byte `0`. -/
theorem claim_C1_witness :
    format_query (fmtOfDirs [Dir.w]) [QueryValue.Number (-2)] =
      .ok (encBytes [Dir.w] [QueryValue.Number (-2)]) ∧
    ∀ x : Nat, scan_query (x :: encBytes [Dir.w] [QueryValue.Number (-2)]) (fmtOfDirs [Dir.w]) =
      .ok [QueryValue.Number (-2)] :=
  claim_C1_amended (ArgsMatch.w (by norm_num) (by norm_num) ArgsMatch.nil)

end NetMD
